import Mathlib

/-!
Verification of the checkpoint, snapshot, dataset-partition and I/O codec
layers of the moseq2-model package, shallowly embedded in Lean 4.

Python sources embedded here:
  * `moseq2_model/util.py`: `copy_model`, `save_arhmm_checkpoint`,
    `load_pcs`, `load_data_from_matlab`, `dict_to_h5`, `h5_to_dict`.
  * `moseq2_model/cli.py`: the checkpoint-restore block of `learn_model`
    (lines 188-199) and the hold-out split block (lines 112-129).

Mutation of Python objects is rendered as explicit state passing: a function
that mutates an object returns the object's final state alongside its
ordinary return value.  Fallible code returns `Except`.
-/

namespace MoseqModel

/-! ## Model snapshot (`copy_model`, `moseq2_model/util.py` lines 473-500)

An ARHMM's per-session sampler sub-state (`pyhsmm` states object) carries a
`data` attribute holding that session's strided training data, plus further
sampler state we leave abstract.  `data = none` renders Python's `s.data = None`.
-/

/-- One per-session sampler sub-state: optional bulk `data` plus the rest of
the sampler state, abstracted as `rest`. -/
structure SubState (α : Type) where
  data : Option α
  rest : Nat
  deriving DecidableEq, Repr

/-- The live model object: its `states_list` plus all remaining model state,
abstracted as `hypparams`. -/
structure ARHMMModel (α : Type) where
  states_list : List (SubState α)
  hypparams : Nat
  deriving DecidableEq, Repr

/-- `copy_model` (`moseq2_model/util.py` 473-500): stash each sub-state's
`data` in `tmp`, null every `s.data`, deep-copy the data-less object, then
zip `tmp` back onto the live states.  Returns (final state of the live model
object, the returned copy). -/
def copy_model (model_obj : ARHMMModel α) : ARHMMModel α × ARHMMModel α :=
  let tmp := model_obj.states_list.map (fun s => s.data)
  let detached : ARHMMModel α :=
    { model_obj with
      states_list := model_obj.states_list.map (fun s => { s with data := none }) }
  let cp := detached
  let reattached : ARHMMModel α :=
    { detached with
      states_list := List.zipWith (fun s t => { s with data := t }) detached.states_list tmp }
  (reattached, cp)

/-- The checkpoint dictionary passed to `save_arhmm_checkpoint`: keys
`model`, `iter`, plus further entries (log-likelihoods, labels) abstracted
as `extras`. -/
structure CheckpointDict (α : Type) where
  model : ARHMMModel α
  iter : Nat
  extras : Nat
  deriving DecidableEq, Repr

/-- `save_arhmm_checkpoint` (`moseq2_model/util.py` 313-334): pops `model`
from the caller's dict and re-inserts `copy_model(mdl)` before dumping.
Returns (the caller's dict after the call, the final state of the original
model object). -/
def save_arhmm_checkpoint (arhmm : CheckpointDict α) : CheckpointDict α × ARHMMModel α :=
  let mdl := arhmm.model
  let res := copy_model mdl
  ({ arhmm with model := res.2 }, res.1)

/-! ## Checkpoint restore (`moseq2_model/cli.py` lines 184-202)

The primary and backup checkpoint slots are files on disk; a slot is either
missing, present but corrupt (deserialization raises `ValueError`), or good.
`load_arhmm_checkpoint` on a missing file raises `FileNotFoundError`.
-/

/-- State of one checkpoint slot on disk. -/
inductive Slot (C : Type) where
  | missing
  | corrupt
  | good (c : C)
  deriving DecidableEq, Repr

/-- Errors `load_arhmm_checkpoint` can raise and the restore block catches. -/
inductive LoadErr where
  | fileNotFound
  | badValue
  deriving DecidableEq, Repr

/-- The two on-disk checkpoint slots (`<stem>-checkpoint.arhmm` and its
`.1` sibling). -/
structure CheckpointFS (C : Type) where
  primary : Slot C
  backup : Slot C
  deriving DecidableEq, Repr

/-- `load_arhmm_checkpoint` on one slot: `joblib.load` of a missing path
raises `FileNotFoundError`; of a corrupt file raises `ValueError`. -/
def loadSlot : Slot C → Except LoadErr C
  | .missing => .error .fileNotFound
  | .corrupt => .error .badValue
  | .good c => .ok c

/-- Whether a slot's file exists on disk (`Path.exists`). -/
def Slot.existsOnDisk : Slot C → Bool
  | .missing => false
  | _ => true

/-- The restore block of `learn_model` (`moseq2_model/cli.py` 188-202):
if either slot's file exists, try the primary; on `FileNotFoundError` or
`ValueError`, unlink the primary if it still exists and retry the backup.
If neither file exists, start fresh.  Returns the restored (or fresh)
checkpoint together with the file system after the block. -/
def restoreOrFresh (fs : CheckpointFS C) (fresh : C) :
    Except LoadErr (C × CheckpointFS C) :=
  if fs.primary.existsOnDisk || fs.backup.existsOnDisk then
    match loadSlot fs.primary with
    | .ok c => .ok (c, fs)
    | .error _ =>
      let fsAfterUnlink : CheckpointFS C :=
        if fs.primary.existsOnDisk then { fs with primary := .missing } else fs
      match loadSlot fsAfterUnlink.backup with
      | .ok c => .ok (c, fsAfterUnlink)
      | .error e => .error e
  else
    .ok (fresh, fs)

/-! ## Session hold-out partition (`moseq2_model/cli.py` lines 112-129)

`learn_model` shuffles `range(nkeys)` with `random.Random(seed).sample`,
chunks the permutation into `nfolds` near-equal folds with
`np.array_split`, holds out fold 0 and trains on the remaining keys.
-/

/-- A linear congruential step driving the modelled shuffle stream. -/
def lcg (s : Nat) : Nat := (s * 1103515245 + 12345) % 2 ^ 31

/-- Modelled from the spec: `random.Random(seed).sample(range(n), n)` — the
Python standard library's Mersenne-Twister full-sample, described by the spec
only as a "seeded shuffle" whose seed "makes membership reproducible".  It is
modelled as a seed-determined Fisher-Yates draw (pick the `s mod len`-th
remaining element, recurse on the rest with the next stream value); every
claim settled here depends only on it being a seed-determined permutation.
`fuel` bounds the recursion by the list length so the function reduces
structurally. -/
def pyShuffleAux [DecidableEq α] : Nat → Nat → List α → List α
  | 0, _, _ => []
  | _ + 1, _, [] => []
  | fuel + 1, s, x :: xs =>
    let l := x :: xs
    let y := l.get ⟨s % l.length, Nat.mod_lt _ (Nat.succ_pos xs.length)⟩
    y :: pyShuffleAux fuel (lcg s) (l.erase y)

/-- Modelled from the spec: the seeded shuffle, run with exactly enough fuel. -/
def pyShuffle [DecidableEq α] (s : Nat) (l : List α) : List α :=
  pyShuffleAux l.length s l

/-- `np.array_split` section sizes: `l.length % k` sections of size
`l.length / k + 1` followed by sections of size `l.length / k`. -/
def splitSizes (n k : Nat) : List Nat :=
  (List.range k).map (fun i => if i < n % k then n / k + 1 else n / k)

/-- Cut a list into consecutive chunks of the given sizes. -/
def takeChunks : List Nat → List α → List (List α)
  | [], _ => []
  | sz :: rest, l => l.take sz :: takeChunks rest (l.drop sz)

/-- `np.array_split(l, k)`: `k` near-equal consecutive chunks. -/
def array_split (l : List α) (k : Nat) : List (List α) :=
  takeChunks (splitSizes l.length k) l

/-- Fold 0 of the shuffled chunks, mapped back to session keys:
`[all_keys[k] for k in splits[0]]` (`moseq2_model/cli.py` line 122), where
`splits` shuffles with the provided seed when `hold_out_seed >= 0` and with
system entropy (parameter `entropy`) otherwise. -/
def heldOutFold (hold_out_seed : Int) (entropy nfolds : Nat)
    (all_keys : List K) (dflt : K) : List K :=
  let nkeys := all_keys.length
  let perm :=
    if 0 ≤ hold_out_seed then pyShuffle hold_out_seed.toNat (List.range nkeys)
    else pyShuffle entropy (List.range nkeys)
  ((array_split perm nfolds).headD []).map (fun i => all_keys.getD i dflt)

/-- Result of the hold-out block: the (possibly disabled) `hold_out` flag,
`hold_out_list` and `train_list`. -/
structure SplitResult (K : Type) where
  hold_out : Bool
  hold_out_list : Option (List K)
  train_list : List K
  deriving DecidableEq, Repr

/-- The hold-out block of `learn_model` (`moseq2_model/cli.py` 112-129):
when `hold_out` is requested and `nkeys >= nfolds`, hold out fold 0 of the
shuffled chunks and train on every key not held out; otherwise disable
hold-out, set the held-out list to `None` and train on all keys. -/
def holdOutSplit [DecidableEq K] (hold_out : Bool) (hold_out_seed : Int)
    (nfolds entropy : Nat) (all_keys : List K) (dflt : K) : SplitResult K :=
  let nkeys := all_keys.length
  if hold_out && decide (nfolds ≤ nkeys) then
    let hold_out_list := heldOutFold hold_out_seed entropy nfolds all_keys dflt
    let train_list := all_keys.filter (fun k => !(hold_out_list.contains k))
    ⟨true, some hold_out_list, train_list⟩
  else
    ⟨false, none, all_keys⟩

/-- The spec's partition-completeness predicate: the two lists cover all
keys and are disjoint. -/
def IsSessionPartition (all_keys train ho : List K) : Prop :=
  (∀ x, x ∈ all_keys ↔ (x ∈ train ∨ x ∈ ho)) ∧ ∀ x, ¬(x ∈ train ∧ x ∈ ho)

/-! ## `load_pcs` (`moseq2_model/util.py` lines 20-100 and 412-438)

Feature matrices are row-major `List (List α)` (frames × dimensions).
`load_pcs` dispatches on the file extension; the extension and parsed
contents are rendered as one container constructor.  A `.mat` file holds
named variables, each a cell array of per-session matrices stored
transposed (PCs × frames); a pickle holds a mapping whose values are
either matrices or (matrix, group) tuples (Python sniffs the first value,
so containers are homogeneous); an h5 file may hold a single dataset or a
group of per-key datasets under `var_name`, or `var_name` may be absent or
of an unexpected node kind.  Metadata assembly (`uuids`/`groups`) runs on
separate variables after the data dict is built and does not affect the
returned feature matrices or the claimed error behavior, so it is not
modelled. -/

/-- Session keys of the returned collection: `.mat` and the single-dataset
h5 branch key by integer, pickles by their own keys, h5 groups by dataset
name. -/
inductive PCKey where
  | num (n : Nat)
  | str (s : String)
  deriving DecidableEq, Repr

/-- What sits under `var_name` inside an h5 file: a single dataset, a group
of per-key datasets, or some other node kind. -/
inductive H5PCNode (α : Type) where
  | dataset (rows : List (List α))
  | group (entries : List (String × List (List α)))
  | other
  deriving DecidableEq, Repr

/-- A parsed input container, tagged by the extension `load_pcs` dispatches
on. -/
inductive PCContainer (α G : Type) where
  | mat (vars : List (String × List (List (List α))))
  | pkl (entries : List (PCKey × List (List α)))
  | pklTuple (entries : List (PCKey × (List (List α) × G)))
  | h5 (var : Option (H5PCNode α))
  deriving DecidableEq, Repr

/-- Errors raised by `load_pcs`: the h5 branch raises
`IOError('Could not find dataset name ...')` when `var_name` is absent and
`IOError('Could not load data from h5 file')` on an unexpected node kind. -/
inductive LoadPCsErr where
  | missingVariable (var_name : String)
  | corruptContainer
  deriving DecidableEq, Repr

/-- numpy's `.T` on a row-major rectangular matrix: row `j` of the result
is column `j` of the input. -/
def npTranspose [Inhabited α] (m : List (List α)) : List (List α) :=
  (List.range (m.headD []).length).map (fun j => m.map (fun row => row.getD j default))

/-- `load_data_from_matlab` (`moseq2_model/util.py` 412-438): when
`var_name` is among the file's variables, dereference each cell,
keep the first `npcs` stored rows (`score_to_add[:npcs, :]`) and transpose;
keys are the running integer index.  When `var_name` is absent the loop
never runs and the empty dict is returned. -/
def load_data_from_matlab [Inhabited α] (vars : List (String × List (List (List α))))
    (var_name : String) (npcs : Nat) : List (PCKey × List (List α)) :=
  match vars.lookup var_name with
  | some score_tmp =>
    score_tmp.enum.map (fun p => (PCKey.num p.1, npTranspose (p.2.take npcs)))
  | none => []

/-- `load_pcs` (`moseq2_model/util.py` 20-100): extension dispatch, with
every loaded matrix cut to its first `npcs` columns (`[:, :npcs]`). -/
def load_pcs [Inhabited α] (file : PCContainer α G) (var_name : String)
    (npcs : Nat) : Except LoadPCsErr (List (PCKey × List (List α))) :=
  match file with
  | .mat vars => .ok (load_data_from_matlab vars var_name npcs)
  | .pkl entries => .ok (entries.map (fun p => (p.1, p.2.map (List.take npcs))))
  | .pklTuple entries => .ok (entries.map (fun p => (p.1, p.2.1.map (List.take npcs))))
  | .h5 none => .error (.missingVariable var_name)
  | .h5 (some (.dataset rows)) => .ok [(PCKey.num 1, rows.map (List.take npcs))]
  | .h5 (some (.group entries)) =>
    .ok (entries.map (fun p => (PCKey.str p.1, p.2.map (List.take npcs))))
  | .h5 (some .other) => .error .corruptContainer

/-- The column-truncation property of a successful `load_pcs` run: every
returned row is cut to at most `npcs` entries; a pickle load is exactly the
column-wise `take npcs` of its stored matrices; and the spec's scenario — a
single 500-frame, 15-column session loaded with `npcs = 10` (row-major via
pickle, or stored transposed in a matlab cell) — comes back as 500 rows of
10 columns. -/
def TruncationSpec [Inhabited α] (file : PCContainer α G) (var_name : String)
    (npcs : Nat) (res : List (PCKey × List (List α))) : Prop :=
  (∀ p ∈ res, ∀ row ∈ p.2, row.length ≤ npcs) ∧
  (∀ entries, file = PCContainer.pkl entries →
    res = entries.map (fun p => (p.1, p.2.map (List.take npcs)))) ∧
  (∀ entries, file = PCContainer.h5 (some (H5PCNode.group entries)) →
    res = entries.map (fun p => (PCKey.str p.1, p.2.map (List.take npcs)))) ∧
  (∀ k m, file = PCContainer.pkl [(k, m)] → npcs = 10 → m.length = 500 →
    (∀ row ∈ m, row.length = 15) →
    res.length = 1 ∧ ∀ p ∈ res, p.2.length = 500 ∧ ∀ row ∈ p.2, row.length = 10) ∧
  (∀ mstored, file = PCContainer.mat [(var_name, [mstored])] → npcs = 10 →
    mstored.length = 15 → (∀ row ∈ mstored, row.length = 500) →
    res.length = 1 ∧ ∀ p ∈ res, p.2.length = 500 ∧ ∀ row ∈ p.2, row.length = 10)

/-! ## `dict_to_h5` / `h5_to_dict` (`moseq2_model/util.py` 249-286, 358-409)

`dict_to_h5` recursively writes a nested dict into an h5 file: a dict
becomes a group, an ndarray or list a dataset, an object-dtype ndarray a
variable-length dataset written row by row, a scalar or (utf8-encoded)
string a scalar dataset; any other leaf raises
`ValueError('Cannot save <type> type')`.  Tuple and int keys are coerced
with `str(key)` first.  `h5_to_dict` reads the tree back, strings
surfacing as bytes.  Numeric leaves are modelled over `Int`. -/

/-- A Python dict key reaching `dict_to_h5`: a string, an integer, or a
tuple (of integers, as in the label-path keys the package produces). -/
inductive PyKey where
  | str (s : String)
  | int (n : Int)
  | tup (elems : List Int)
  deriving DecidableEq, Repr

/-- `str(key)`: identity on strings, decimal form of an integer,
`(a, b)` for a tuple with `(a,)` for the one-element tuple. -/
def pyKeyStr : PyKey → String
  | .str s => s
  | .int n => toString n
  | .tup [] => "()"
  | .tup [a] => "(" ++ toString a ++ ",)"
  | .tup (a :: b :: rest) =>
    "(" ++ toString a
        ++ ((b :: rest).map (fun x => ", " ++ toString x)).foldl (· ++ ·) ""
        ++ ")"

/-- A Python value reaching `dict_to_h5`: uniform array (ndarray or list),
object-dtype (ragged) array, string, bytes, numeric scalar, nested dict, or
a leaf of an unsupported type carrying its type name. -/
inductive PyVal where
  | arr (a : List Int)
  | ragged (a : List (List Int))
  | pystr (s : String)
  | pybytes (s : String)
  | num (n : Int)
  | dict (entries : List (PyKey × PyVal))
  | unsupported (typeName : String)

/-- A dataset in the written h5 file. -/
inductive H5Leaf where
  | arr (a : List Int)
  | vlen (a : List (List Int))
  | bytes (s : String)
  | num (n : Int)
  deriving DecidableEq, Repr

/-- A node of the written h5 file: dataset or group. -/
inductive H5Entry where
  | ds (l : H5Leaf)
  | grp (entries : List (String × H5Entry))

mutual

/-- One item of the `dict_to_h5` loop body (`moseq2_model/util.py`
267-286): strings are utf8-encoded to bytes first, then the type dispatch
writes a dataset, recurses into a sub-dict, or raises
`ValueError(f'Cannot save ... type')` on anything else. -/
def valToH5 : PyVal → Except String H5Entry
  | .arr a => .ok (.ds (.arr a))
  | .ragged a => .ok (.ds (.vlen a))
  | .pystr s => .ok (.ds (.bytes s))
  | .pybytes s => .ok (.ds (.bytes s))
  | .num n => .ok (.ds (.num n))
  | .dict es =>
    match dict_to_h5 es with
    | .ok l => .ok (.grp l)
    | .error e => .error e
  | .unsupported t => .error ("Cannot save " ++ t ++ " type")

/-- `dict_to_h5` (`moseq2_model/util.py` 249-286): iterate the dict's
items in order, coercing tuple/int keys to their string form; the first
failing item aborts the write. -/
def dict_to_h5 : List (PyKey × PyVal) → Except String (List (String × H5Entry))
  | [] => .ok []
  | (key, item) :: rest =>
    match valToH5 item with
    | .error e => .error e
    | .ok e =>
      match dict_to_h5 rest with
      | .error e2 => .error e2
      | .ok tail => .ok ((pyKeyStr key, e) :: tail)

end

mutual

/-- `_load_h5_to_dict` on one node (`moseq2_model/util.py` 358-384):
datasets read back as their values (bytes stay bytes), groups recurse. -/
def h5EntryToVal : H5Entry → PyVal
  | .ds (.arr a) => .arr a
  | .ds (.vlen a) => .ragged a
  | .ds (.bytes s) => .pybytes s
  | .ds (.num n) => .num n
  | .grp es => .dict (h5EntriesToVal es)

/-- The loop over a group's items, keys coming back as strings. -/
def h5EntriesToVal : List (String × H5Entry) → List (PyKey × PyVal)
  | [] => []
  | (k, e) :: rest => (PyKey.str k, h5EntryToVal e) :: h5EntriesToVal rest

end

/-- `h5_to_dict` at the root path of a written file. -/
def h5_to_dict (root : List (String × H5Entry)) : PyVal :=
  .dict (h5EntriesToVal root)

mutual

/-- A nested mapping whose keys are all strings and whose leaves are all
uniform arrays (the shape of C7's round-trip scenario). -/
def arrOnlyVal : PyVal → Bool
  | .arr _ => true
  | .dict es => arrOnlyEnts es
  | _ => false

/-- `arrOnlyVal` over a dict's entries. -/
def arrOnlyEnts : List (PyKey × PyVal) → Bool
  | [] => true
  | (key, v) :: rest =>
    (match key with | .str _ => true | _ => false) && arrOnlyVal v && arrOnlyEnts rest

end

mutual

/-- Whether a value contains an unsupported-typed leaf anywhere. -/
def hasUnsupVal : PyVal → Bool
  | .unsupported _ => true
  | .dict es => hasUnsupEnts es
  | _ => false

/-- `hasUnsupVal` over a dict's entries. -/
def hasUnsupEnts : List (PyKey × PyVal) → Bool
  | [] => false
  | (_, v) :: rest => hasUnsupVal v || hasUnsupEnts rest

end

mutual

/-- Whether a value contains an unsupported leaf whose type name is `t`. -/
def occursUnsupVal (t : String) : PyVal → Bool
  | .unsupported u => u == t
  | .dict es => occursUnsupEnts t es
  | _ => false

/-- `occursUnsupVal` over a dict's entries. -/
def occursUnsupEnts (t : String) : List (PyKey × PyVal) → Bool
  | [] => false
  | (_, v) :: rest => occursUnsupVal t v || occursUnsupEnts t rest

end

end MoseqModel

namespace MoseqModel

/-! ## Theorems -/

/-- The modelled shuffle is a permutation of its input. -/
theorem pyShuffleAux_perm [DecidableEq α] :
    ∀ (fuel s : Nat) (l : List α), l.length ≤ fuel →
      (pyShuffleAux fuel s l).Perm l := by
  intro fuel
  induction fuel with
  | zero =>
    intro s l h
    cases l with
    | nil => simp [pyShuffleAux]
    | cons x xs => simp at h
  | succ n ih =>
    intro s l h
    cases l with
    | nil => simp [pyShuffleAux]
    | cons x xs =>
      simp only [pyShuffleAux]
      have hmem : (x :: xs).get ⟨s % (x :: xs).length,
          Nat.mod_lt _ (Nat.succ_pos xs.length)⟩ ∈ x :: xs := List.get_mem _ _ _
      have hperm := List.perm_cons_erase hmem
      have hlen : ((x :: xs).erase ((x :: xs).get ⟨s % (x :: xs).length,
          Nat.mod_lt _ (Nat.succ_pos xs.length)⟩)).length ≤ n := by
        rw [List.length_erase_of_mem hmem]
        simpa using Nat.le_of_succ_le_succ h
      exact (List.Perm.cons _ (ih (lcg s) _ hlen)).trans hperm.symm

/-- Every element of the shuffled index list is a valid index. -/
theorem pyShuffle_range_lt {s n i : Nat} (h : i ∈ pyShuffle s (List.range n)) :
    i < n := by
  have hp := pyShuffleAux_perm (List.range n).length s (List.range n) (le_refl _)
  have : i ∈ List.range n := hp.mem_iff.mp h
  simpa using this

/-- Fold 0 of `array_split` only contains elements of the input list. -/
theorem array_split_headD_subset (l : List α) (k : Nat) :
    (array_split l k).headD [] ⊆ l := by
  cases k with
  | zero =>
    intro x hx
    simp [array_split, splitSizes, takeChunks] at hx
  | succ m =>
    rw [array_split, splitSizes, List.range_succ_eq_map, List.map_cons, takeChunks]
    intro x hx
    simp only [List.headD_cons] at hx
    exact List.take_subset _ _ hx

/-- Every held-out key is one of the session keys. -/
theorem heldOutFold_subset (seed : Int) (entropy nfolds : Nat)
    (all_keys : List K) (dflt : K) :
    heldOutFold seed entropy nfolds all_keys dflt ⊆ all_keys := by
  intro x hx
  simp only [heldOutFold, List.mem_map] at hx
  obtain ⟨i, hi, hxi⟩ := hx
  have hperm : i < all_keys.length := by
    by_cases hs : 0 ≤ seed
    · simp only [hs, if_pos] at hi
      exact pyShuffle_range_lt (array_split_headD_subset _ _ hi)
    · simp only [hs, if_neg, not_false_iff] at hi
      exact pyShuffle_range_lt (array_split_headD_subset _ _ hi)
  rw [← hxi, List.getD_eq_getElem _ _ hperm]
  exact List.getElem_mem hperm

/-- C3: with hold-out requested and at least `nfolds` sessions, the split
holds out exactly fold 0 of the `nfolds` shuffled chunks (mapped back to
session keys) and the training and held-out lists partition the session
keys: their union is the key set and their intersection is empty. -/
theorem hold_out_partition (K : Type) [DecidableEq K] (seed : Int)
    (nfolds entropy : Nat) (all_keys : List K) (dflt : K)
    (hn : nfolds ≤ all_keys.length) :
    (holdOutSplit true seed nfolds entropy all_keys dflt).hold_out_list
        = some (heldOutFold seed entropy nfolds all_keys dflt) ∧
    IsSessionPartition all_keys
      (holdOutSplit true seed nfolds entropy all_keys dflt).train_list
      (heldOutFold seed entropy nfolds all_keys dflt) := by
  have hcond : (true && decide (nfolds ≤ all_keys.length)) = true := by
    simp [hn]
  constructor
  · simp [holdOutSplit, hcond]
  · constructor
    · intro x
      constructor
      · intro hx
        by_cases hmem : x ∈ heldOutFold seed entropy nfolds all_keys dflt
        · exact Or.inr hmem
        · refine Or.inl ?_
          simp [holdOutSplit, hcond, List.mem_filter, hx, hmem]
      · intro hx
        rcases hx with hx | hx
        · simp only [holdOutSplit, hcond, if_pos, List.mem_filter] at hx
          exact hx.1
        · exact heldOutFold_subset seed entropy nfolds all_keys dflt hx
    · intro x hx
      obtain ⟨hxt, hxh⟩ := hx
      simp only [holdOutSplit, hcond, if_pos, List.mem_filter] at hxt
      have hx2 : ¬ x ∈ heldOutFold seed entropy nfolds all_keys dflt := by
        simpa using hxt.2
      exact hx2 hxh

/-- Witness for C3 on three concrete sessions with `nfolds = 3`, seed 42. -/
theorem hold_out_partition_witness :
    (3 ≤ ([10, 20, 30] : List Nat).length) ∧
    ((holdOutSplit true 42 3 0 ([10, 20, 30] : List Nat) 0).hold_out_list
        = some (heldOutFold 42 0 3 ([10, 20, 30] : List Nat) 0) ∧
      IsSessionPartition ([10, 20, 30] : List Nat)
        (holdOutSplit true 42 3 0 ([10, 20, 30] : List Nat) 0).train_list
        (heldOutFold 42 0 3 ([10, 20, 30] : List Nat) 0)) :=
  ⟨by decide, hold_out_partition Nat 42 3 0 [10, 20, 30] 0 (by decide)⟩

/-- C4: when hold-out is requested but there are fewer sessions than folds,
the run degrades instead of failing: hold-out is disabled, the held-out
list is `None`, and every session key becomes training data. -/
theorem hold_out_infeasible_degrades (K : Type) [DecidableEq K] (seed : Int)
    (nfolds entropy : Nat) (all_keys : List K) (dflt : K)
    (h : all_keys.length < nfolds) :
    holdOutSplit true seed nfolds entropy all_keys dflt
      = ⟨false, none, all_keys⟩ := by
  simp [holdOutSplit, Nat.not_le.mpr h]

/-- Witness for C4: two sessions, five folds. -/
theorem hold_out_infeasible_degrades_witness :
    (([1, 2] : List Nat).length < 5) ∧
    holdOutSplit true (-1) 5 7 ([1, 2] : List Nat) 0 = ⟨false, none, [1, 2]⟩ :=
  ⟨by decide, hold_out_infeasible_degrades Nat (-1) 5 7 [1, 2] 0 (by decide)⟩

/-- C5: with a non-negative seed the split never consults system entropy,
so any two runs produce identical held-out membership; and in the
3-session, `nfolds = 3`, seed 42 scenario exactly one session is held out. -/
theorem hold_out_seeded_reproducible (K : Type) [DecidableEq K] (ho : Bool)
    (seed : Int) (nfolds e1 e2 : Nat) (all_keys : List K) (dflt : K)
    (hseed : 0 ≤ seed) :
    holdOutSplit ho seed nfolds e1 all_keys dflt
      = holdOutSplit ho seed nfolds e2 all_keys dflt ∧
    (seed = 42 → nfolds = 3 → all_keys.length = 3 →
      ∃ l, (holdOutSplit true seed nfolds e1 all_keys dflt).hold_out_list = some l
        ∧ l.length = 1) := by
  constructor
  · simp [holdOutSplit, heldOutFold, hseed]
  · intro h42 h3 hlen
    subst h42
    subst h3
    refine ⟨heldOutFold 42 e1 3 all_keys dflt, ?_, ?_⟩
    · simp [holdOutSplit, hlen]
    · simp only [heldOutFold, hlen, List.length_map]
      rw [if_pos (by decide : (0 : Int) ≤ 42)]
      decide

/-- Witness for C5 on three concrete string sessions, seed 42, two
different entropy draws. -/
theorem hold_out_seeded_reproducible_witness :
    ((0 : Int) ≤ 42) ∧
    (holdOutSplit true 42 3 0 (["a", "b", "c"] : List String) ""
        = holdOutSplit true 42 3 99 (["a", "b", "c"] : List String) "" ∧
      ((42 : Int) = 42 → (3 : Nat) = 3 → (["a", "b", "c"] : List String).length = 3 →
        ∃ l, (holdOutSplit true 42 3 0 (["a", "b", "c"] : List String) "").hold_out_list
            = some l ∧ l.length = 1)) :=
  ⟨by decide, hold_out_seeded_reproducible String true 42 3 0 99 ["a", "b", "c"] "" (by decide)⟩

/-- Rows of the transpose are the input's columns, so each has the input's
row count as its length. -/
theorem npTranspose_row_length [Inhabited α] {m : List (List α)} {row : List α}
    (h : row ∈ npTranspose m) : row.length = m.length := by
  simp only [npTranspose, List.mem_map] at h
  obtain ⟨j, hj, hrow⟩ := h
  rw [← hrow, List.length_map]

/-- Rows of a column-truncated matrix have length at most `npcs`. -/
theorem mem_map_take_length {l : List (List α)} {row : List α} {npcs : Nat}
    (h : row ∈ l.map (List.take npcs)) : row.length ≤ npcs := by
  simp only [List.mem_map] at h
  obtain ⟨r, hr, hrow⟩ := h
  rw [← hrow, List.length_take]
  exact min_le_left _ _

/-- C6: every successful `load_pcs` run truncates each loaded feature
matrix to its first `npcs` columns, and the (500, 15)-with-`npcs = 10`
scenario yields shape (500, 10). -/
theorem load_pcs_truncates_columns (α G : Type) [Inhabited α]
    (file : PCContainer α G) (var_name : String) (npcs : Nat)
    (res : List (PCKey × List (List α)))
    (h : load_pcs file var_name npcs = .ok res) :
    TruncationSpec file var_name npcs res := by
  refine ⟨?_, ?_, ?_, ?_, ?_⟩
  · intro p hp row hrow
    cases file with
    | mat vars =>
      simp only [load_pcs, Except.ok.injEq] at h
      subst h
      unfold load_data_from_matlab at hp
      cases hl : vars.lookup var_name with
      | none => rw [hl] at hp; simp at hp
      | some score_tmp =>
        rw [hl] at hp
        simp only [List.mem_map] at hp
        obtain ⟨q, hq, hpq⟩ := hp
        rw [← hpq] at hrow
        have := npTranspose_row_length hrow
        rw [this, List.length_take]
        exact min_le_left _ _
    | pkl entries =>
      simp only [load_pcs, Except.ok.injEq] at h
      subst h
      simp only [List.mem_map] at hp
      obtain ⟨q, hq, hpq⟩ := hp
      rw [← hpq] at hrow
      exact mem_map_take_length hrow
    | pklTuple entries =>
      simp only [load_pcs, Except.ok.injEq] at h
      subst h
      simp only [List.mem_map] at hp
      obtain ⟨q, hq, hpq⟩ := hp
      rw [← hpq] at hrow
      exact mem_map_take_length hrow
    | h5 var =>
      match var with
      | none => simp [load_pcs] at h
      | some (.dataset rows) =>
        simp only [load_pcs, Except.ok.injEq] at h
        subst h
        simp only [List.mem_singleton] at hp
        rw [hp] at hrow
        exact mem_map_take_length hrow
      | some (.group entries) =>
        simp only [load_pcs, Except.ok.injEq] at h
        subst h
        simp only [List.mem_map] at hp
        obtain ⟨q, hq, hpq⟩ := hp
        rw [← hpq] at hrow
        exact mem_map_take_length hrow
      | some .other => simp [load_pcs] at h
  · intro entries hfile
    subst hfile
    simp only [load_pcs, Except.ok.injEq] at h
    exact h.symm
  · intro entries hfile
    subst hfile
    simp only [load_pcs, Except.ok.injEq] at h
    exact h.symm
  · intro k m hfile hnpcs hm500 hm15
    subst hfile
    subst hnpcs
    simp only [load_pcs, Except.ok.injEq] at h
    subst h
    refine ⟨rfl, ?_⟩
    intro p hp
    simp only [List.map_cons, List.map_nil, List.mem_singleton] at hp
    subst hp
    refine ⟨by simpa using hm500, ?_⟩
    intro row hrow
    simp only [List.mem_map] at hrow
    obtain ⟨r, hr, hrow⟩ := hrow
    rw [← hrow, List.length_take, hm15 r hr]
    decide
  · intro mstored hfile hnpcs hm15 hm500
    subst hfile
    subst hnpcs
    simp only [load_pcs, Except.ok.injEq] at h
    subst h
    unfold load_data_from_matlab
    have hl : ([(var_name, [mstored])] : List (String × List (List (List α)))).lookup var_name
        = some [mstored] := by
      simp [List.lookup]
    rw [hl]
    refine ⟨rfl, ?_⟩
    intro p hp
    simp only [List.enum, List.enumFrom, List.map_cons, List.map_nil,
      List.mem_singleton] at hp
    subst hp
    constructor
    · cases mstored with
      | nil => simp at hm15
      | cons r0 rest =>
        have h0 : r0.length = 500 := hm500 r0 (List.mem_cons_self _ _)
        simp [npTranspose, List.take_succ_cons, h0]
    · intro row hrow
      have := npTranspose_row_length hrow
      rw [this, List.length_take, hm15]
      decide

/-- Witness for C6: a two-frame, three-column pickle session loaded with
`npcs = 2`. -/
theorem load_pcs_truncates_columns_witness :
    (load_pcs (G := Unit) (PCContainer.pkl [(PCKey.num 0, [[1, 2, 3], [4, 5, 6]])])
        "scores" 2 = .ok [(PCKey.num 0, ([[1, 2], [4, 5]] : List (List Int)))]) ∧
    TruncationSpec (G := Unit)
      (PCContainer.pkl [(PCKey.num 0, [[1, 2, 3], [4, 5, 6]])]) "scores" 2
      [(PCKey.num 0, ([[1, 2], [4, 5]] : List (List Int)))] :=
  ⟨rfl,
   load_pcs_truncates_columns Int Unit
     (PCContainer.pkl [(PCKey.num 0, [[1, 2, 3], [4, 5, 6]])]) "scores" 2
     [(PCKey.num 0, [[1, 2], [4, 5]])] rfl⟩

/-- Counterexample to C8: a matlab container without the requested variable
loads successfully (returning an empty session collection) instead of
failing with a missing-variable error. -/
theorem load_pcs_missing_var_mat_counterexample :
    load_pcs (α := Int) (G := Unit) (PCContainer.mat [("other", [[[1]]])])
      "features" 10 = .ok [] := by
  rfl

/-- C8 (amended): a missing `var_name` fails with the missing-variable
error in the h5 format, but in the matlab format it yields an empty
collection without error (the pickle formats never consult `var_name`). -/
theorem load_pcs_missing_var_amended (α G : Type) [Inhabited α]
    (var_name : String) (npcs : Nat) :
    (load_pcs (α := α) (G := G) (PCContainer.h5 none) var_name npcs
        = .error (LoadPCsErr.missingVariable var_name)) ∧
    (∀ vars : List (String × List (List (List α))), vars.lookup var_name = none →
      load_pcs (α := α) (G := G) (PCContainer.mat vars) var_name npcs = .ok []) := by
  refine ⟨rfl, ?_⟩
  intro vars hl
  simp [load_pcs, load_data_from_matlab, hl]

/-- Witness for the amended C8 at concrete containers. -/
theorem load_pcs_missing_var_amended_witness :
    (load_pcs (α := Int) (G := Unit) (PCContainer.h5 none) "features" 10
        = .error (LoadPCsErr.missingVariable "features")) ∧
    (([(("other" : String), [[[(1 : Int)]]])].lookup "features" = none) ∧
      load_pcs (α := Int) (G := Unit) (PCContainer.mat [("other", [[[1]]])])
        "features" 10 = .ok []) :=
  ⟨(load_pcs_missing_var_amended Int Unit "features" 10).1,
   ⟨by decide, (load_pcs_missing_var_amended Int Unit "features" 10).2 _ (by decide)⟩⟩

mutual

/-- Round trip of one value through write-then-read, for values that are
nested string-keyed dicts with uniform array leaves. -/
theorem valToH5_roundtrip (v : PyVal) (h : arrOnlyVal v = true) :
    ∃ e, valToH5 v = .ok e ∧ h5EntryToVal e = v := by
  match v with
  | .arr a => exact ⟨.ds (.arr a), rfl, rfl⟩
  | .ragged a => simp [arrOnlyVal] at h
  | .pystr s => simp [arrOnlyVal] at h
  | .pybytes s => simp [arrOnlyVal] at h
  | .num n => simp [arrOnlyVal] at h
  | .unsupported t => simp [arrOnlyVal] at h
  | .dict es =>
    obtain ⟨l, hl, hback⟩ := entsToH5_roundtrip es (by simpa [arrOnlyVal] using h)
    refine ⟨.grp l, ?_, ?_⟩
    · simp [valToH5, hl]
    · simp [h5EntryToVal, hback]

/-- Round trip of a dict's entries through write-then-read. -/
theorem entsToH5_roundtrip (es : List (PyKey × PyVal)) (h : arrOnlyEnts es = true) :
    ∃ l, dict_to_h5 es = .ok l ∧ h5EntriesToVal l = es := by
  match es with
  | [] => exact ⟨[], rfl, rfl⟩
  | (key, v) :: rest =>
    simp only [arrOnlyEnts, Bool.and_eq_true] at h
    obtain ⟨⟨hkey, hv⟩, hrest⟩ := h
    obtain ⟨e, he, heback⟩ := valToH5_roundtrip v hv
    obtain ⟨l, hl, hlback⟩ := entsToH5_roundtrip rest hrest
    match key with
    | .str s =>
      refine ⟨(s, e) :: l, ?_, ?_⟩
      · simp [dict_to_h5, he, hl, pyKeyStr]
      · simp [h5EntriesToVal, heback, hlback]
    | .int n => simp at hkey
    | .tup t => simp at hkey

end

/-- C7: writing a nested string-keyed mapping with array leaves through
`dict_to_h5` and reading it back through `h5_to_dict` reproduces the
identical nested mapping. -/
theorem dict_to_h5_roundtrip (es : List (PyKey × PyVal))
    (h : arrOnlyEnts es = true) :
    ∃ l, dict_to_h5 es = .ok l ∧ h5_to_dict l = .dict es := by
  obtain ⟨l, hl, hback⟩ := entsToH5_roundtrip es h
  exact ⟨l, hl, by simp [h5_to_dict, hback]⟩

/-- Witness for C7 on the spec's scenario `{"a": {"b": [1, 2, 3]}}`. -/
theorem dict_to_h5_roundtrip_witness :
    (arrOnlyEnts [(PyKey.str "a", PyVal.dict [(PyKey.str "b", PyVal.arr [1, 2, 3])])]
        = true) ∧
    ∃ l, dict_to_h5 [(PyKey.str "a", PyVal.dict [(PyKey.str "b", PyVal.arr [1, 2, 3])])]
          = .ok l ∧
      h5_to_dict l
        = .dict [(PyKey.str "a", PyVal.dict [(PyKey.str "b", PyVal.arr [1, 2, 3])])] :=
  ⟨by decide,
   dict_to_h5_roundtrip [(PyKey.str "a", PyVal.dict [(PyKey.str "b", PyVal.arr [1, 2, 3])])]
     (by decide)⟩

mutual

/-- A value with no unsupported leaf anywhere serializes successfully. -/
theorem valToH5_ok_of_noUnsup (v : PyVal) (h : hasUnsupVal v = false) :
    ∃ e, valToH5 v = .ok e := by
  match v with
  | .arr a => exact ⟨.ds (.arr a), rfl⟩
  | .ragged a => exact ⟨.ds (.vlen a), rfl⟩
  | .pystr s => exact ⟨.ds (.bytes s), rfl⟩
  | .pybytes s => exact ⟨.ds (.bytes s), rfl⟩
  | .num n => exact ⟨.ds (.num n), rfl⟩
  | .unsupported t => simp [hasUnsupVal] at h
  | .dict es =>
    obtain ⟨l, hl⟩ := entsToH5_ok_of_noUnsup es (by simpa [hasUnsupVal] using h)
    exact ⟨.grp l, by simp [valToH5, hl]⟩

/-- Entries with no unsupported leaf anywhere serialize successfully. -/
theorem entsToH5_ok_of_noUnsup (es : List (PyKey × PyVal))
    (h : hasUnsupEnts es = false) : ∃ l, dict_to_h5 es = .ok l := by
  match es with
  | [] => exact ⟨[], rfl⟩
  | (key, v) :: rest =>
    simp only [hasUnsupEnts, Bool.or_eq_false_iff] at h
    obtain ⟨e, he⟩ := valToH5_ok_of_noUnsup v h.1
    obtain ⟨l, hl⟩ := entsToH5_ok_of_noUnsup rest h.2
    exact ⟨(pyKeyStr key, e) :: l, by simp [dict_to_h5, he, hl]⟩

end

mutual

/-- A value containing an unsupported leaf fails with the `Cannot save`
message, naming a type that does occur at an unsupported leaf inside it. -/
theorem valToH5_err_of_unsup (v : PyVal) (h : hasUnsupVal v = true) :
    ∃ t, valToH5 v = .error ("Cannot save " ++ t ++ " type")
      ∧ occursUnsupVal t v = true := by
  match v with
  | .arr a => simp [hasUnsupVal] at h
  | .ragged a => simp [hasUnsupVal] at h
  | .pystr s => simp [hasUnsupVal] at h
  | .pybytes s => simp [hasUnsupVal] at h
  | .num n => simp [hasUnsupVal] at h
  | .unsupported t => exact ⟨t, rfl, by simp [occursUnsupVal]⟩
  | .dict es =>
    obtain ⟨t, ht, hocc⟩ := entsToH5_err_of_unsup es (by simpa [hasUnsupVal] using h)
    refine ⟨t, ?_, ?_⟩
    · simp [valToH5, ht]
    · simpa [occursUnsupVal] using hocc

/-- Entries containing an unsupported leaf fail with the `Cannot save`
message, naming a type occurring at an unsupported leaf inside them. -/
theorem entsToH5_err_of_unsup (es : List (PyKey × PyVal))
    (h : hasUnsupEnts es = true) :
    ∃ t, dict_to_h5 es = .error ("Cannot save " ++ t ++ " type")
      ∧ occursUnsupEnts t es = true := by
  match es with
  | [] => simp [hasUnsupEnts] at h
  | (key, v) :: rest =>
    by_cases hv : hasUnsupVal v = true
    · obtain ⟨t, ht, hocc⟩ := valToH5_err_of_unsup v hv
      refine ⟨t, ?_, ?_⟩
      · simp [dict_to_h5, ht]
      · simp [occursUnsupEnts, hocc]
    · have hrest : hasUnsupEnts rest = true := by
        simp only [hasUnsupEnts, Bool.or_eq_true] at h
        exact h.resolve_left hv
      obtain ⟨e, he⟩ := valToH5_ok_of_noUnsup v (by simpa using hv)
      obtain ⟨t, ht, hocc⟩ := entsToH5_err_of_unsup rest hrest
      refine ⟨t, ?_, ?_⟩
      · simp [dict_to_h5, he, ht]
      · simp [occursUnsupEnts, hocc]

end

/-- Written names are the coerced keys, in order. -/
theorem dict_to_h5_key_coercion (es : List (PyKey × PyVal))
    (l : List (String × H5Entry)) (h : dict_to_h5 es = .ok l) :
    l.map Prod.fst = es.map (fun p => pyKeyStr p.1) := by
  induction es generalizing l with
  | nil =>
    simp only [dict_to_h5, Except.ok.injEq] at h
    simp [← h]
  | cons p rest ih =>
    obtain ⟨key, v⟩ := p
    simp only [dict_to_h5] at h
    cases he : valToH5 v with
    | error e => rw [he] at h; exact absurd h (by simp)
    | ok e =>
      rw [he] at h
      cases hr : dict_to_h5 rest with
      | error e2 => rw [hr] at h; exact absurd h (by simp)
      | ok tail =>
        rw [hr] at h
        simp only [Except.ok.injEq] at h
        rw [← h]
        simp [ih tail hr]

/-- C9: the hierarchical result writer uses the string form of every
(possibly tuple- or integer-typed) key as the written name, and any
unsupported-typed leaf anywhere in the mapping aborts the write with a
failure naming the offending type — it is never silently dropped. -/
theorem dict_to_h5_keys_and_unsupported :
    (∀ (es : List (PyKey × PyVal)) (l : List (String × H5Entry)),
      dict_to_h5 es = .ok l → l.map Prod.fst = es.map (fun p => pyKeyStr p.1)) ∧
    (∀ es : List (PyKey × PyVal), hasUnsupEnts es = true →
      ∃ t, dict_to_h5 es = .error ("Cannot save " ++ t ++ " type")
        ∧ occursUnsupEnts t es = true) :=
  ⟨dict_to_h5_key_coercion, entsToH5_err_of_unsup⟩

/-- Witness for C9: an int key and a tuple key coerce to `3` and
`(1, 2)`; a dict holding a DataFrame-typed leaf fails naming that type. -/
theorem dict_to_h5_keys_and_unsupported_witness :
    ([("3", H5Entry.ds (H5Leaf.arr [1])), ("(1, 2)", H5Entry.ds (H5Leaf.arr [2]))].map
        Prod.fst
      = [(PyKey.int 3, PyVal.arr [1]), (PyKey.tup [1, 2], PyVal.arr [2])].map
          (fun p => pyKeyStr p.1)) ∧
    (hasUnsupEnts [(PyKey.str "x", PyVal.unsupported "DataFrame")] = true ∧
      ∃ t, dict_to_h5 [(PyKey.str "x", PyVal.unsupported "DataFrame")]
          = .error ("Cannot save " ++ t ++ " type")
        ∧ occursUnsupEnts t [(PyKey.str "x", PyVal.unsupported "DataFrame")] = true) :=
  ⟨dict_to_h5_keys_and_unsupported.1
     [(PyKey.int 3, PyVal.arr [1]), (PyKey.tup [1, 2], PyVal.arr [2])]
     [("3", H5Entry.ds (H5Leaf.arr [1])), ("(1, 2)", H5Entry.ds (H5Leaf.arr [2]))]
     rfl,
   by decide,
   dict_to_h5_keys_and_unsupported.2 [(PyKey.str "x", PyVal.unsupported "DataFrame")]
     (by decide)⟩

/-- C2: after `copy_model` returns, the live model is exactly its pre-call
self (every sub-state's data reattached), and every sub-state of the
returned copy holds no data. -/
theorem copy_model_detach_reattach (α : Type) (m : ARHMMModel α) :
    (copy_model m).1 = m ∧
    ∀ s ∈ (copy_model m).2.states_list, s.data = none := by
  constructor
  · unfold copy_model
    simp only
    congr 1
    induction m.states_list with
    | nil => rfl
    | cons x xs ih => simp [ih]
  · intro s hs
    unfold copy_model at hs
    simp only [List.mem_map] at hs
    obtain ⟨t, _, ht⟩ := hs
    rw [← ht]

/-- C10: after `save_arhmm_checkpoint`, the caller's dict holds a data-less
deep copy under `model` (same sub-states with `data := none`, other entries
untouched), while the original model object keeps all its data. -/
theorem save_arhmm_checkpoint_strips_dict_keeps_live (α : Type) (d : CheckpointDict α) :
    (save_arhmm_checkpoint d).1.model.states_list
      = d.model.states_list.map (fun s => { s with data := none }) ∧
    (save_arhmm_checkpoint d).1.iter = d.iter ∧
    (save_arhmm_checkpoint d).1.extras = d.extras ∧
    (save_arhmm_checkpoint d).2 = d.model := by
  refine ⟨rfl, rfl, rfl, ?_⟩
  exact (copy_model_detach_reattach α d.model).1

/-- C1: when the primary checkpoint slot is corrupt and the backup is good,
the restore block succeeds with the backup's checkpoint and the corrupt
primary file has been deleted. -/
theorem restore_fallback_deletes_corrupt_primary (C : Type) (fresh c : C)
    (fs : CheckpointFS C) (hp : fs.primary = .corrupt) (hb : fs.backup = .good c) :
    restoreOrFresh fs fresh = .ok (c, { primary := .missing, backup := .good c }) := by
  obtain ⟨p, b⟩ := fs
  cases hp
  cases hb
  rfl

/-- Witness for C1 at a concrete file system over `Nat` checkpoints. -/
theorem restore_fallback_deletes_corrupt_primary_witness :
    restoreOrFresh (C := Nat) ⟨Slot.corrupt, Slot.good 7⟩ 0
      = .ok (7, { primary := .missing, backup := .good 7 }) :=
  restore_fallback_deletes_corrupt_primary Nat 0 7 ⟨Slot.corrupt, Slot.good 7⟩ rfl rfl

end MoseqModel
